import Mathlib

/-!
Verification of the 93Cxx serial-EEPROM programmer (`eeprom-93cxx.c`).

The development shallowly embeds the C program: machine integers become
`Nat` with explicit `% 2^w` truncation where the C code stores into a
fixed-width integer, SPI messages become lists of transfers, and the
read/write orchestration loops become structural recursions.  The
simulated device used by the round-trip properties is modelled from the
specification (it is external hardware, not part of the source).
-/

/-! ## Opcode and subcode constants (from the `#define` block) -/

def OPCODE_READ : Nat := 0x2
def OPCODE_WRITE : Nat := 0x1
def OPCODE_EWEN : Nat := 0x0
def SUBCODE_EWEN : Nat := 3
def SUBCODE_ERAL : Nat := 2
def SUBCODE_EWDS : Nat := 0

/-- Flag bit for x8 organization support (`EEPROM_X8`). -/
def EEPROM_X8 : Nat := 0x01
/-- Flag bit for x16 organization support (`EEPROM_X16`). -/
def EEPROM_X16 : Nat := 0x02
/-- Both organizations supported (`EEPROM_ORG`). -/
def EEPROM_ORG : Nat := 0x03

/-! ## Device profile (`struct eeprom`)

The `spi_fd` field (an OS file handle) is irrelevant to the protocol and
is omitted.  `size` is a `uint16_t`, `addr_bits` and `flags` are
`uint8_t` in the C source; the embedding uses `Nat` and the theorems
carry the range hypotheses the program establishes. -/

structure Eeprom where
  name : String
  size : Nat
  addr_bits : Nat
  flags : Nat
  is_x16 : Bool
deriving DecidableEq, Repr

/-- The static catalog `eeprom_types_list` (the `.size = 0` terminator is
the list's end). -/
def eeprom_types_list : List Eeprom :=
  [ ⟨"93c66", 512, 9, EEPROM_ORG, false⟩,
    ⟨"93c56", 256, 8, EEPROM_ORG, false⟩,
    ⟨"93c46", 128, 7, EEPROM_ORG, false⟩,
    ⟨"93c06", 32, 6, EEPROM_X16, false⟩ ]

/-- ASCII lower-casing of a character code, as `strcasecmp` does. -/
def to_lower_code (c : Char) : Nat :=
  if 65 ≤ c.toNat ∧ c.toNat ≤ 90 then c.toNat + 32 else c.toNat

/-- `strcasecmp(a, b) == 0`: ASCII case-insensitive string equality. -/
def strcaseeq (a b : String) : Bool :=
  a.data.map to_lower_code == b.data.map to_lower_code

/-- `eeprom_find`: case-insensitive name lookup in the catalog
(`strcasecmp`). -/
def eeprom_find (ty : String) : Option Eeprom :=
  eeprom_types_list.find? (fun e => strcaseeq e.name ty)

/-- The default profile `main` starts from (`.name = "custom"`). -/
def default_eeprom : Eeprom :=
  ⟨"custom", 256, 8, EEPROM_ORG, false⟩

/-- Profile finalization, from `main` (lines 205–228): the `is_x16` flag
is set from the `--x16` option; when a catalog type was requested the
catalog entry replaces the user-supplied fields and, in x16 mode only,
`addr_bits` is decremented by one.  The user-supplied (or default)
geometry path performs no decrement.  Returns `none` for an unknown
catalog name. -/
def finalize_profile (type_specified : Bool) (eeprom_type : String)
    (user : Eeprom) (x16 : Bool) : Option Eeprom :=
  if type_specified then
    match eeprom_find eeprom_type with
    | none => none
    | some cat =>
        some { cat with
                 is_x16 := x16,
                 addr_bits := if x16 then cat.addr_bits - 1 else cat.addr_bits }
  else
    some { user with is_x16 := x16 }

/-- `sanitize_input`: the validation checks performed after profile
finalization, as a decidable proposition (the C function returns `-1`
exactly when one of these fails). -/
def sanitize_input (e : Eeprom) : Prop :=
  e.size ≠ 0 ∧
  e.size &&& (e.size - 1) = 0 ∧
  5 ≤ e.addr_bits ∧ e.addr_bits ≤ 9 ∧
  (e.is_x16 → e.flags &&& EEPROM_X16 ≠ 0) ∧
  (¬ e.is_x16 → e.flags &&& EEPROM_X8 ≠ 0)

instance (e : Eeprom) : Decidable (sanitize_input e) := by
  unfold sanitize_input; infer_instance

/-! ## Header encoder (`prepare_cmd`)

`bits`, `addr` and `command` are `uint16_t`, `cmd` and `dummy_bits` are
`uint8_t`; every store truncates accordingly.  The function fills a
2-byte transmit buffer with the command word, big-endian. -/

def prepare_cmd (e : Eeprom) (cmd addr dummy_bits : Nat) : List Nat :=
  let cmd0 := cmd % 256
  let addr0 := addr % 65536
  let dummy0 := dummy_bits % 256
  let bits := (e.addr_bits + dummy0) % 65536
  let cmd1 := (cmd0 ||| (1 <<< 2)) % 256
  let addr1 := (addr0 &&& ((1 <<< bits) - 1)) % 65536
  let command := ((cmd1 <<< bits) ||| addr1) % 65536
  [command >>> 8, command % 256]

/-- The big-endian 16-bit value carried by a 2-byte header buffer. -/
def hdrValue : List Nat → Nat
  | [b0, b1] => 256 * b0 + b1
  | _ => 0

/-! ## Transactions

An SPI message is a list of chained transfers; each transfer either
transmits bytes or receives a number of bytes.  (`bits_per_word` is 8 and
`speed_hz` is 100000 on every transfer and carries no information.) -/

inductive Xfer where
  | tx : List Nat → Xfer
  | rx : Nat → Xfer
deriving DecidableEq, Repr

/-- The message issued by `read_data`: READ header with 1 dummy bit,
then a receive-only data phase of `len` bytes. -/
def read_data_msg (e : Eeprom) (len addr : Nat) : List Xfer :=
  [Xfer.tx (prepare_cmd e OPCODE_READ addr 1), Xfer.rx len]

/-- The message issued by `write_data`: WRITE header with 0 dummy bits,
then a transmit-only data phase. -/
def write_data_msg (e : Eeprom) (addr : Nat) (data : List Nat) : List Xfer :=
  [Xfer.tx (prepare_cmd e OPCODE_WRITE addr 0), Xfer.tx data]

/-- The message issued by `read_status`: a single 1-byte receive-only
transfer, no header phase. -/
def read_status_msg : List Xfer := [Xfer.rx 1]

/-- The message issued by `send_command`: the 2-bit subcode is shifted to
the top of the address field (`subop << (addr_bits - 2)`, stored in a
`uint16_t`) and encoded with 0 dummy bits; single header-only transfer. -/
def send_command_msg (e : Eeprom) (op subop : Nat) : List Xfer :=
  [Xfer.tx (prepare_cmd e op ((subop <<< (e.addr_bits - 2)) % 65536) 0)]

/-- `enable_write`: `send_command(OPCODE_EWEN, SUBCODE_EWEN)`. -/
def enable_write_msg (e : Eeprom) : List Xfer :=
  send_command_msg e OPCODE_EWEN SUBCODE_EWEN

/-- `diable_write` (sic): `send_command(OPCODE_EWEN, SUBCODE_EWDS)`. -/
def diable_write_msg (e : Eeprom) : List Xfer :=
  send_command_msg e OPCODE_EWEN SUBCODE_EWDS

/-- `erase_all`: `send_command(OPCODE_EWEN, SUBCODE_ERAL)`. -/
def erase_all_msg (e : Eeprom) : List Xfer :=
  send_command_msg e OPCODE_EWEN SUBCODE_ERAL

/-! ## Helper lemmas about the encoder -/

/-- Closed form of `prepare_cmd` in the defined-behavior region: with a
3-bit-or-less opcode field and at most 13 payload bits, the command word
is `(cmd | 0b100) * 2^bits + addr % 2^bits` and the two bytes are its
big-endian split. -/
theorem prepare_cmd_spec (e : Eeprom) (cmd addr dummy : Nat)
    (hc : cmd < 8) (hd : dummy < 256) (hb : e.addr_bits + dummy ≤ 13) :
    prepare_cmd e cmd addr dummy =
      [((cmd ||| 4) * 2 ^ (e.addr_bits + dummy) + addr % 2 ^ (e.addr_bits + dummy)) / 256,
       ((cmd ||| 4) * 2 ^ (e.addr_bits + dummy) + addr % 2 ^ (e.addr_bits + dummy)) % 256] := by
  have hc4 : cmd ||| 4 < 8 := Nat.or_lt_two_pow (n := 3) hc (by norm_num)
  have hb16 : e.addr_bits + dummy ≤ 16 := le_trans hb (by norm_num)
  unfold prepare_cmd
  have h1 : cmd % 256 = cmd := Nat.mod_eq_of_lt (lt_trans hc (by norm_num))
  have h2 : dummy % 256 = dummy := Nat.mod_eq_of_lt hd
  have h3 : (e.addr_bits + dummy) % 65536 =
      e.addr_bits + dummy := Nat.mod_eq_of_lt (lt_of_le_of_lt hb (by norm_num))
  have h4 : (1 : Nat) <<< 2 = 4 := rfl
  simp only [h1, h2, h3, h4]
  have h5 : (cmd ||| 4) % 256 = cmd ||| 4 := Nat.mod_eq_of_lt (lt_trans hc4 (by norm_num))
  rw [h5]
  have hshift1 : (1 : Nat) <<< (e.addr_bits + dummy) = 2 ^ (e.addr_bits + dummy) := by
    rw [Nat.shiftLeft_eq, one_mul]
  have hmask : (addr % 65536) &&& (2 ^ (e.addr_bits + dummy) - 1)
      = addr % 2 ^ (e.addr_bits + dummy) := by
    rw [Nat.and_pow_two_sub_one_eq_mod,
        Nat.mod_mod_of_dvd _ (Nat.pow_dvd_pow 2 hb16)]
  have hmlt : addr % 2 ^ (e.addr_bits + dummy) < 2 ^ (e.addr_bits + dummy) :=
    Nat.mod_lt _ (Nat.two_pow_pos _)
  have hmask' : ((addr % 65536) &&& (2 ^ (e.addr_bits + dummy) - 1)) % 65536
      = addr % 2 ^ (e.addr_bits + dummy) := by
    rw [hmask]
    exact Nat.mod_eq_of_lt (lt_of_lt_of_le hmlt (Nat.pow_le_pow_right (by norm_num) hb16))
  rw [hshift1, hmask']
  have hor : (cmd ||| 4) <<< (e.addr_bits + dummy) ||| addr % 2 ^ (e.addr_bits + dummy)
      = (cmd ||| 4) * 2 ^ (e.addr_bits + dummy) + addr % 2 ^ (e.addr_bits + dummy) := by
    rw [Nat.shiftLeft_eq, Nat.mul_comm (cmd ||| 4) (2 ^ (e.addr_bits + dummy)),
        ← Nat.mul_add_lt_is_or hmlt]
  rw [hor]
  have hlt : (cmd ||| 4) * 2 ^ (e.addr_bits + dummy) + addr % 2 ^ (e.addr_bits + dummy)
      < 65536 := by
    have h7 : (cmd ||| 4) * 2 ^ (e.addr_bits + dummy) ≤ 7 * 2 ^ 13 := by
      apply Nat.mul_le_mul (Nat.lt_succ_iff.mp hc4) (Nat.pow_le_pow_right (by norm_num) hb)
    have h8 : addr % 2 ^ (e.addr_bits + dummy) < 2 ^ 13 :=
      lt_of_lt_of_le hmlt (Nat.pow_le_pow_right (by norm_num) hb)
    omega
  rw [Nat.mod_eq_of_lt hlt, Nat.shiftRight_eq_div_pow]

/-- The header value of the encoded buffer equals the command word. -/
theorem hdrValue_prepare_cmd (e : Eeprom) (cmd addr dummy : Nat)
    (hc : cmd < 8) (hd : dummy < 256) (hb : e.addr_bits + dummy ≤ 13) :
    hdrValue (prepare_cmd e cmd addr dummy) =
      (cmd ||| 4) * 2 ^ (e.addr_bits + dummy) + addr % 2 ^ (e.addr_bits + dummy) := by
  rw [prepare_cmd_spec e cmd addr dummy hc hd hb]
  unfold hdrValue
  exact Nat.div_add_mod _ 256

/-! ## Claim C1 -/

/-- C1: for every 2-bit opcode, address, and dummy/address bit counts
with `addr_bits_effective + dummy_bits ≤ 13`, `prepare_cmd` produces
exactly 2 bytes whose big-endian 16-bit value is
`((opcode | 0b100) << bits) | (address & ((1 << bits) - 1))` with
`bits = addr_bits_effective + dummy_bits`; out-of-range address bits are
silently masked off. -/
theorem C1_header_encoder (e : Eeprom) (opcode addr dummy : Nat)
    (hc : opcode < 4) (hd : dummy < 256) (hb : e.addr_bits + dummy ≤ 13) :
    (prepare_cmd e opcode addr dummy).length = 2 ∧
    hdrValue (prepare_cmd e opcode addr dummy) =
      ((opcode ||| 4) <<< (e.addr_bits + dummy)) |||
        (addr &&& ((1 <<< (e.addr_bits + dummy)) - 1)) := by
  have hc8 : opcode < 8 := lt_trans hc (by norm_num)
  constructor
  · rw [prepare_cmd_spec e opcode addr dummy hc8 hd hb]; rfl
  · rw [hdrValue_prepare_cmd e opcode addr dummy hc8 hd hb]
    have hshift1 : (1 : Nat) <<< (e.addr_bits + dummy) = 2 ^ (e.addr_bits + dummy) := by
      rw [Nat.shiftLeft_eq, one_mul]
    have hmlt : addr % 2 ^ (e.addr_bits + dummy) < 2 ^ (e.addr_bits + dummy) :=
      Nat.mod_lt _ (Nat.two_pow_pos _)
    rw [hshift1, Nat.and_pow_two_sub_one_eq_mod, Nat.shiftLeft_eq,
        Nat.mul_comm (opcode ||| 4) (2 ^ (e.addr_bits + dummy)),
        ← Nat.mul_add_lt_is_or hmlt]

/-- C1 witness: the encoder evaluated at a concrete profile and input
(addr_bits 9, READ opcode, dummy 1, address 0x5AB3 masked to 10 bits). -/
theorem C1_header_encoder_witness :
    (2 : Nat) < 4 ∧ (1 : Nat) < 256 ∧
    ({ default_eeprom with addr_bits := 9 } : Eeprom).addr_bits + 1 ≤ 13 ∧
    ((prepare_cmd { default_eeprom with addr_bits := 9 } 2 0x5AB3 1).length = 2 ∧
     hdrValue (prepare_cmd { default_eeprom with addr_bits := 9 } 2 0x5AB3 1) =
       ((2 ||| 4) <<< (({ default_eeprom with addr_bits := 9 } : Eeprom).addr_bits + 1)) |||
         (0x5AB3 &&& ((1 <<< (({ default_eeprom with addr_bits := 9 } : Eeprom).addr_bits + 1)) - 1))) :=
  ⟨by decide, by decide, by decide,
   C1_header_encoder { default_eeprom with addr_bits := 9 } 2 0x5AB3 1
     (by decide) (by decide) (by decide)⟩

/-! ## Claim C3 -/

/-- C3 counterexample: on the explicit user-supplied geometry path
(`type_specified = false`) with `addr_bits = 9` and 16-bit mode, the
finalized profile keeps `addr_bits = 9` — the decrement the claim asserts
for every construction path is not applied. -/
theorem C3_counterexample :
    (finalize_profile false "" { default_eeprom with addr_bits := 9 } true).map
        Eeprom.addr_bits = some 9 ∧
    (finalize_profile false "" { default_eeprom with addr_bits := 9 } true).map
        Eeprom.addr_bits ≠ some (9 - 1) := by
  constructor
  · rfl
  · decide

/-- C3 amended: the x16 decrement of the effective address-bit width is
applied exactly once, at profile finalization, but only on the
catalog-lookup path; the explicit user-supplied geometry path (and the
built-in default profile) uses the supplied `addr_bits` unchanged in both
access modes. -/
theorem C3_addr_bits_finalization (user cat : Eeprom) (ty : String) (x16 : Bool)
    (hcat : eeprom_find ty = some cat) :
    (finalize_profile false ty user x16).map Eeprom.addr_bits = some user.addr_bits ∧
    (finalize_profile false ty user x16).map Eeprom.is_x16 = some x16 ∧
    (finalize_profile true ty user x16).map Eeprom.addr_bits =
      some (if x16 then cat.addr_bits - 1 else cat.addr_bits) ∧
    (finalize_profile true ty user x16).map Eeprom.is_x16 = some x16 := by
  refine ⟨rfl, rfl, ?_, ?_⟩ <;> simp [finalize_profile, hcat]

/-- C3 witness: the catalog entry `93c66` has `addr_bits = 9`; selecting
16-bit mode finalizes to effective width 8, while the user-supplied path
with `addr_bits = 9` stays at 9 even in 16-bit mode. -/
theorem C3_addr_bits_finalization_witness :
    eeprom_find "93c66" = some ⟨"93c66", 512, 9, EEPROM_ORG, false⟩ ∧
    ((finalize_profile false "93c66" { default_eeprom with addr_bits := 9 } true).map
        Eeprom.addr_bits = some ({ default_eeprom with addr_bits := 9 } : Eeprom).addr_bits ∧
     (finalize_profile false "93c66" { default_eeprom with addr_bits := 9 } true).map
        Eeprom.is_x16 = some true ∧
     (finalize_profile true "93c66" { default_eeprom with addr_bits := 9 } true).map
        Eeprom.addr_bits =
       some (if true then (⟨"93c66", 512, 9, EEPROM_ORG, false⟩ : Eeprom).addr_bits - 1
             else (⟨"93c66", 512, 9, EEPROM_ORG, false⟩ : Eeprom).addr_bits) ∧
     (finalize_profile true "93c66" { default_eeprom with addr_bits := 9 } true).map
        Eeprom.is_x16 = some true) :=
  ⟨by decide,
   C3_addr_bits_finalization { default_eeprom with addr_bits := 9 }
     ⟨"93c66", 512, 9, EEPROM_ORG, false⟩ "93c66" true (by decide)⟩

/-! ## Claim C4 -/

/-- C4: `read_data` encodes its READ header with exactly 1 dummy bit
(payload field is `addr_bits + 1` bits wide) and chains a receive-only
data phase of the requested length; `write_data` encodes its WRITE
header with exactly 0 dummy bits (payload field is `addr_bits` bits wide)
and chains a transmit-only data phase of the given data. -/
theorem C4_read_write_primitives (e : Eeprom) (addr len : Nat) (data : List Nat)
    (hb : e.addr_bits + 1 ≤ 13) :
    read_data_msg e len addr =
      [Xfer.tx (prepare_cmd e OPCODE_READ addr 1), Xfer.rx len] ∧
    hdrValue (prepare_cmd e OPCODE_READ addr 1) =
      6 * 2 ^ (e.addr_bits + 1) + addr % 2 ^ (e.addr_bits + 1) ∧
    write_data_msg e addr data =
      [Xfer.tx (prepare_cmd e OPCODE_WRITE addr 0), Xfer.tx data] ∧
    hdrValue (prepare_cmd e OPCODE_WRITE addr 0) =
      5 * 2 ^ e.addr_bits + addr % 2 ^ e.addr_bits := by
  refine ⟨rfl, ?_, rfl, ?_⟩
  · have h := hdrValue_prepare_cmd e OPCODE_READ addr 1 (by decide) (by decide) hb
    simpa [OPCODE_READ] using h
  · have h := hdrValue_prepare_cmd e OPCODE_WRITE addr 0 (by decide) (by decide)
      (by omega)
    simpa [OPCODE_WRITE] using h

/-- C4 witness: evaluated at `addr_bits = 9`, address 5, length 4, data
`[0xAA, 0xBB]`. -/
theorem C4_read_write_primitives_witness :
    ({ default_eeprom with addr_bits := 9 } : Eeprom).addr_bits + 1 ≤ 13 ∧
    (read_data_msg { default_eeprom with addr_bits := 9 } 4 5 =
       [Xfer.tx (prepare_cmd { default_eeprom with addr_bits := 9 } OPCODE_READ 5 1),
        Xfer.rx 4] ∧
     hdrValue (prepare_cmd { default_eeprom with addr_bits := 9 } OPCODE_READ 5 1) =
       6 * 2 ^ (({ default_eeprom with addr_bits := 9 } : Eeprom).addr_bits + 1) +
         5 % 2 ^ (({ default_eeprom with addr_bits := 9 } : Eeprom).addr_bits + 1) ∧
     write_data_msg { default_eeprom with addr_bits := 9 } 5 [0xAA, 0xBB] =
       [Xfer.tx (prepare_cmd { default_eeprom with addr_bits := 9 } OPCODE_WRITE 5 0),
        Xfer.tx [0xAA, 0xBB]] ∧
     hdrValue (prepare_cmd { default_eeprom with addr_bits := 9 } OPCODE_WRITE 5 0) =
       5 * 2 ^ ({ default_eeprom with addr_bits := 9 } : Eeprom).addr_bits +
         5 % 2 ^ ({ default_eeprom with addr_bits := 9 } : Eeprom).addr_bits) :=
  ⟨by decide,
   C4_read_write_primitives { default_eeprom with addr_bits := 9 } 5 4 [0xAA, 0xBB]
     (by decide)⟩

/-! ## Claim C5 -/

/-- C5: `send_command` encodes, with 0 dummy bits, a header whose address
field is the 2-bit subcode left-shifted by `addr_bits - 2`, i.e. the
subcode occupies the two highest bits of the `addr_bits`-wide address
field (the shifted subcode survives the encoder's mask intact). -/
theorem C5_send_special (e : Eeprom) (op subop : Nat)
    (hop : op < 4) (hsub : subop < 4) (h2 : 2 ≤ e.addr_bits) (h13 : e.addr_bits ≤ 13) :
    send_command_msg e op subop =
      [Xfer.tx (prepare_cmd e op (subop <<< (e.addr_bits - 2)) 0)] ∧
    hdrValue (prepare_cmd e op ((subop <<< (e.addr_bits - 2)) % 65536) 0) =
      (op ||| 4) * 2 ^ e.addr_bits + subop * 2 ^ (e.addr_bits - 2) := by
  have hpow : (2 : Nat) ^ e.addr_bits = 2 ^ (e.addr_bits - 2) * 4 := by
    have h : e.addr_bits - 2 + 2 = e.addr_bits := by omega
    calc (2 : Nat) ^ e.addr_bits = 2 ^ (e.addr_bits - 2 + 2) := by rw [h]
    _ = 2 ^ (e.addr_bits - 2) * 4 := by rw [pow_add]; norm_num
  have hsublt : subop * 2 ^ (e.addr_bits - 2) < 2 ^ e.addr_bits := by
    rw [hpow, Nat.mul_comm (2 ^ (e.addr_bits - 2)) 4]
    exact (Nat.mul_lt_mul_right (Nat.two_pow_pos _)).mpr hsub
  have hlt16 : subop * 2 ^ (e.addr_bits - 2) < 65536 :=
    lt_of_lt_of_le hsublt
      (le_trans (Nat.pow_le_pow_right (by norm_num) h13) (by norm_num))
  have hshl : subop <<< (e.addr_bits - 2) = subop * 2 ^ (e.addr_bits - 2) :=
    Nat.shiftLeft_eq _ _
  constructor
  · unfold send_command_msg
    rw [hshl, Nat.mod_eq_of_lt hlt16]
  · rw [hshl, Nat.mod_eq_of_lt hlt16]
    have h := hdrValue_prepare_cmd e op (subop * 2 ^ (e.addr_bits - 2)) 0
      (by omega) (by decide) (by omega)
    rw [Nat.add_zero] at h
    rw [h, Nat.mod_eq_of_lt hsublt]

/-- C5 witness: for effective address width 7 and subcode `0b11`
(write-enable), the address field is `0b11 <<< 5 = 96`, i.e. the two
highest bits of the 7-bit field. -/
theorem C5_send_special_witness :
    (0 : Nat) < 4 ∧ (3 : Nat) < 4 ∧
    2 ≤ ({ default_eeprom with addr_bits := 7 } : Eeprom).addr_bits ∧
    ({ default_eeprom with addr_bits := 7 } : Eeprom).addr_bits ≤ 13 ∧
    (send_command_msg { default_eeprom with addr_bits := 7 } 0 3 =
       [Xfer.tx (prepare_cmd { default_eeprom with addr_bits := 7 } 0
          (3 <<< (({ default_eeprom with addr_bits := 7 } : Eeprom).addr_bits - 2)) 0)] ∧
     hdrValue (prepare_cmd { default_eeprom with addr_bits := 7 } 0
         ((3 <<< (({ default_eeprom with addr_bits := 7 } : Eeprom).addr_bits - 2)) % 65536) 0) =
       (0 ||| 4) * 2 ^ ({ default_eeprom with addr_bits := 7 } : Eeprom).addr_bits +
         3 * 2 ^ (({ default_eeprom with addr_bits := 7 } : Eeprom).addr_bits - 2)) :=
  ⟨by decide, by decide, by decide, by decide,
   C5_send_special { default_eeprom with addr_bits := 7 } 0 3
     (by decide) (by decide) (by decide) (by decide)⟩

/-! ## Claim C7 -/

/-- C7 counterexample: with effective address width 5 and 0 dummy bits
the logical command is 3 + 5 + 0 = 8 bits — the smallest multiple of 8
covering it is 8 bits (one byte) — yet the encoder emits 2 bytes
(16 bits).  The padded header is not the smallest multiple of 8 and is
not a single byte. -/
theorem C7_counterexample :
    3 + ({ default_eeprom with addr_bits := 5 } : Eeprom).addr_bits + 0 ≤ 8 ∧
    8 * (prepare_cmd { default_eeprom with addr_bits := 5 } OPCODE_WRITE 0 0).length = 16 ∧
    8 * (prepare_cmd { default_eeprom with addr_bits := 5 } OPCODE_WRITE 0 0).length ≠ 8 := by
  refine ⟨by decide, rfl, by decide⟩

/-- C7 amended: the padded header is always exactly 2 bytes (16 bits); 16
is a multiple of 8 and (whenever `addr_bits + dummy_bits ≤ 13`) is at
least `3 + addr_bits + dummy_bits`; it is the smallest such multiple only
when the logical command exceeds 8 bits. -/
theorem C7_header_padding (e : Eeprom) (cmd addr dummy : Nat)
    (hb : e.addr_bits + dummy ≤ 13) :
    (prepare_cmd e cmd addr dummy).length = 2 ∧
    8 ∣ 8 * (prepare_cmd e cmd addr dummy).length ∧
    3 + e.addr_bits + dummy ≤ 8 * (prepare_cmd e cmd addr dummy).length ∧
    (8 * (prepare_cmd e cmd addr dummy).length =
        8 * ((3 + e.addr_bits + dummy + 7) / 8) ↔ 8 < 3 + e.addr_bits + dummy) := by
  have hlen : (prepare_cmd e cmd addr dummy).length = 2 := rfl
  refine ⟨hlen, ?_, ?_, ?_⟩
  · rw [hlen]; exact ⟨2, rfl⟩
  · rw [hlen]; omega
  · rw [hlen]
    constructor
    · intro h; omega
    · intro h; omega

/-- C7 witness: at effective width 9 with 1 dummy bit the 13-bit logical
command pads to 16 bits, which is the smallest multiple of 8 covering
it. -/
theorem C7_header_padding_witness :
    ({ default_eeprom with addr_bits := 9 } : Eeprom).addr_bits + 1 ≤ 13 ∧
    ((prepare_cmd { default_eeprom with addr_bits := 9 } OPCODE_READ 0 1).length = 2 ∧
     8 ∣ 8 * (prepare_cmd { default_eeprom with addr_bits := 9 } OPCODE_READ 0 1).length ∧
     3 + ({ default_eeprom with addr_bits := 9 } : Eeprom).addr_bits + 1 ≤
       8 * (prepare_cmd { default_eeprom with addr_bits := 9 } OPCODE_READ 0 1).length ∧
     (8 * (prepare_cmd { default_eeprom with addr_bits := 9 } OPCODE_READ 0 1).length =
         8 * ((3 + ({ default_eeprom with addr_bits := 9 } : Eeprom).addr_bits + 1 + 7) / 8) ↔
       8 < 3 + ({ default_eeprom with addr_bits := 9 } : Eeprom).addr_bits + 1)) :=
  ⟨by decide,
   C7_header_padding { default_eeprom with addr_bits := 9 } OPCODE_READ 0 1 (by decide)⟩

/-! ## Simulated device model (for the round-trip properties)

The physical EEPROM is not part of the source tree; the model below
follows the specification's description of the family's command
semantics. -/

/-- The access-mode word size in bytes (the `step` computed in
`eeprom_read` and `eeprom_program_array`). -/
def word_size (e : Eeprom) : Nat := if e.is_x16 then 2 else 1

/-- Modelled from the spec: the simulated device's response to a READ
command — `length` bytes starting at the given word address, relying on
the device's auto-increment behavior, wrapping at the end of the
array. -/
def device_read (e : Eeprom) (mem : List Nat) (wordAddr len : Nat) : List Nat :=
  (List.range len).map (fun k => mem.getD ((word_size e * wordAddr + k) % mem.length) 0)

/-- Modelled from the spec: the simulated device's response to a WRITE
command — the data bytes are stored starting at the given word address
(each device word is implicitly erased before being written). -/
def device_write (e : Eeprom) (mem : List Nat) (wordAddr : Nat) (data : List Nat) : List Nat :=
  (List.range data.length).foldl
    (fun m k => m.set ((word_size e * wordAddr + k) % m.length) (data.getD k 0)) mem

/-- The read orchestration `eeprom_read` against the simulated device:
step size is the word size, or the whole array in burst mode; one
`read_data` call per step, at address `i` (the byte offset `i` is passed
as the device address), results appended in address order. -/
def eeprom_read_model (e : Eeprom) (burst : Bool) (mem : List Nat) : List Nat :=
  let step := if burst then e.size else word_size e
  ((List.range ((e.size + step - 1) / step)).map
    (fun j => device_read e mem (j * step) step)).flatten

/-- The write orchestration `eeprom_program_array` against the simulated
device: for each byte offset `i` in steps of the word size, one
`write_data` call at word address `i / step` carrying bytes
`data[i .. i+step)`. -/
def eeprom_program_array_model (e : Eeprom) (data mem : List Nat) : List Nat :=
  let step := word_size e
  (List.range ((e.size + step - 1) / step)).foldl
    (fun m j => device_write e m j ((data.drop (j * step)).take step)) mem

/-- An 8-byte x8 profile and its x16 twin, and a distinguishable image,
used as concrete instances below (both pass `sanitize_input`). -/
def demo_x8 : Eeprom := ⟨"custom", 8, 5, EEPROM_ORG, false⟩

def demo_x16 : Eeprom := ⟨"custom", 8, 5, EEPROM_ORG, true⟩

def demo_img : List Nat := [10, 11, 12, 13, 14, 15, 16, 17]

/-! ## Claim C2 -/

/-- C2 fails on the code: in 8-bit mode the write-then-read round trip
reproduces the image, but in 16-bit mode it does not — `eeprom_read`
passes the byte offset `i` as the device address where
`eeprom_program_array` passes the word index `i / step`, so the stepped
16-bit read fetches words 0, 2, 4, … instead of 0, 1, 2, ….  Evaluated
here at an 8-byte x16 profile: the read-back is
`[10, 11, 14, 15, 10, 11, 14, 15]`, not the written image. -/
theorem C2_roundtrip_evaluation :
    sanitize_input demo_x8 ∧ sanitize_input demo_x16 ∧
    eeprom_read_model demo_x8 false
        (eeprom_program_array_model demo_x8 demo_img (List.replicate 8 0)) = demo_img ∧
    eeprom_read_model demo_x16 false
        (eeprom_program_array_model demo_x16 demo_img (List.replicate 8 0)) ≠ demo_img := by
  refine ⟨by decide, by decide, by decide, by decide⟩

/-! ## Claim C6 -/

/-- C6 fails on the code: burst-mode and stepped reads agree in 8-bit
mode but differ in 16-bit mode — the stepped 16-bit read passes byte
offsets as word addresses and so skips every other word, while the burst
read (a single `read_data` of the whole array at address 0) returns the
array in order. -/
theorem C6_burst_vs_stepped_evaluation :
    sanitize_input demo_x8 ∧ sanitize_input demo_x16 ∧
    eeprom_read_model demo_x8 true demo_img = eeprom_read_model demo_x8 false demo_img ∧
    eeprom_read_model demo_x16 true demo_img ≠ eeprom_read_model demo_x16 false demo_img := by
  refine ⟨by decide, by decide, by decide, by decide⟩

/-! ## Bus outcome model (for the failure-propagation claim)

An `ioctl(SPI_IOC_MESSAGE)` call returns an `int` (negative on error)
and may deposit received bytes.  The bus is a queue of such outcomes;
each primitive performs exactly one ioctl, popping one outcome. -/

structure IoctlResult where
  ret : Int
  rxbytes : List Nat
deriving DecidableEq, Repr

/-- Pop one ioctl outcome from the bus queue. -/
def run_ioctl : List IoctlResult → IoctlResult × List IoctlResult
  | [] => (⟨-1, []⟩, [])
  | r :: rest => (r, rest)

/-- `read_data` with its bus interaction: issues its message in one ioctl
and returns the ioctl result to the caller. -/
def read_data_run (e : Eeprom) (len addr : Nat) (bus : List IoctlResult) :
    List Xfer × Int × List IoctlResult :=
  (read_data_msg e len addr, (run_ioctl bus).1.ret, (run_ioctl bus).2)

/-- `write_data` with its bus interaction: one ioctl, result returned. -/
def write_data_run (e : Eeprom) (addr : Nat) (data : List Nat) (bus : List IoctlResult) :
    List Xfer × Int × List IoctlResult :=
  (write_data_msg e addr data, (run_ioctl bus).1.ret, (run_ioctl bus).2)

/-- `send_command` with its bus interaction: one ioctl, result returned. -/
def send_command_run (e : Eeprom) (op subop : Nat) (bus : List IoctlResult) :
    List Xfer × Int × List IoctlResult :=
  (send_command_msg e op subop, (run_ioctl bus).1.ret, (run_ioctl bus).2)

/-- `read_status` with its bus interaction: `status` starts at 0, one
ioctl may deposit a received byte into it, and the ioctl's return value
is discarded — only the status byte is returned. -/
def read_status_run (bus : List IoctlResult) : List Xfer × Nat × List IoctlResult :=
  (read_status_msg, (run_ioctl bus).1.rxbytes.headD 0, (run_ioctl bus).2)

/-! ## Claim C8 -/

/-- C8 fails on the code for `read_status`: a bus whose single transfer
fails (`ret = -1`, nothing received) and a bus whose transfer succeeds
delivering the byte 0 produce the same caller-visible result — the
`ioctl` return value is discarded, so the failure is swallowed, not
surfaced. -/
theorem C8_counterexample :
    (read_status_run [⟨-1, []⟩]).2.1 = (read_status_run [⟨1, [0]⟩]).2.1 ∧
    (-1 : Int) < 0 ∧ (0 : Int) ≤ 1 := by
  refine ⟨rfl, by decide, by decide⟩

/-- C8 amended: `read_data`, `write_data` and `send_command` surface the
underlying bus result unchanged to the caller and never retry — each
consumes exactly one bus transfer outcome; `read_status`, however,
discards the bus result and returns only the received status byte
(0 when nothing was received), so a bus failure during `read_status` is
not reported. -/
theorem C8_failure_propagation (e : Eeprom) (len addr op subop : Nat)
    (data : List Nat) (r : IoctlResult) (rest : List IoctlResult) :
    (read_data_run e len addr (r :: rest)).2 = (r.ret, rest) ∧
    (write_data_run e addr data (r :: rest)).2 = (r.ret, rest) ∧
    (send_command_run e op subop (r :: rest)).2 = (r.ret, rest) ∧
    (read_status_run (r :: rest)).2 = (r.rxbytes.headD 0, rest) := by
  refine ⟨rfl, rfl, rfl, rfl⟩

/-! ## Write-completion polling (`eeprom_program_array`)

The observable behavior of the write loop is modelled as a trace of
events: each `write_data` call and each `read_status` result.  The
device's successive status-byte responses are a stream `st`; the
busy-wait loop (`while (read_status(eeprom) != 0xff);`) is given fuel,
since the C loop has no bound. -/

inductive Ev where
  | write : Nat → List Nat → Ev
  | status : Nat → Ev
deriving DecidableEq, Repr

/-- Is this event a `write_data` call? -/
def is_write : Ev → Bool
  | Ev.write _ _ => true
  | Ev.status _ => false

/-- The busy-wait polling loop: reads statuses `st base, st (base+1), …`
until one is `0xff`; returns the status events it produced and, on
completion, the next stream position — `none` when the fuel ran out
before a `0xff` was seen. -/
def poll_evs (st : Nat → Nat) : Nat → Nat → List Ev × Option Nat
  | _, 0 => ([], none)
  | base, fuel + 1 =>
    if st base = 255 then ([Ev.status (st base)], some (base + 1))
    else
      let r := poll_evs st (base + 1) fuel
      (Ev.status (st base) :: r.1, r.2)

/-- The per-word loop of `eeprom_program_array`: for each word index,
one `write_data` of that word's bytes followed by the polling loop;
stops (with completion flag `false`) when a polling loop exhausts its
fuel. -/
def program_go (e : Eeprom) (data : List Nat) (st : Nat → Nat) (fuel : Nat) :
    List Nat → Nat → List Ev × Bool
  | [], _ => ([], true)
  | j :: rest, base =>
    match poll_evs st base fuel with
    | (evs, none) =>
        (Ev.write j ((data.drop (j * word_size e)).take (word_size e)) :: evs, false)
    | (evs, some b) =>
        (Ev.write j ((data.drop (j * word_size e)).take (word_size e)) ::
           evs ++ (program_go e data st fuel rest b).1,
         (program_go e data st fuel rest b).2)

/-- The event trace of `eeprom_program_array` over the whole array. -/
def eeprom_program_trace (e : Eeprom) (data : List Nat) (st : Nat → Nat)
    (fuel : Nat) : List Ev × Bool :=
  program_go e data st fuel
    (List.range ((e.size + word_size e - 1) / word_size e)) 0

/-- An adjacent pair of trace events is admissible when the second one,
if it is a write, directly follows a ready (`0xff`) status. -/
def ok_step (a b : Ev) : Bool := !(is_write b) || (a == Ev.status 255)

/-- Every adjacent pair of the trace is admissible: no write is issued
until a ready status was just observed. -/
def ok_trace : List Ev → Bool
  | [] => true
  | [_] => true
  | a :: b :: r => ok_step a b && ok_trace (b :: r)

/-- Number of `write_data` calls in a trace. -/
def write_count (tr : List Ev) : Nat := (tr.filter is_write).length

/-- Unfolding `program_go` when the polling loop runs out of fuel. -/
theorem program_go_cons_none (e : Eeprom) (data : List Nat) (st : Nat → Nat)
    (fuel j base : Nat) (rest : List Nat) (evs : List Ev)
    (h : poll_evs st base fuel = (evs, none)) :
    program_go e data st fuel (j :: rest) base =
      (Ev.write j ((data.drop (j * word_size e)).take (word_size e)) :: evs, false) := by
  unfold program_go
  rw [h]

/-- Unfolding `program_go` when the polling loop completes. -/
theorem program_go_cons_some (e : Eeprom) (data : List Nat) (st : Nat → Nat)
    (fuel j base b : Nat) (rest : List Nat) (evs : List Ev)
    (h : poll_evs st base fuel = (evs, some b)) :
    program_go e data st fuel (j :: rest) base =
      (Ev.write j ((data.drop (j * word_size e)).take (word_size e)) ::
         evs ++ (program_go e data st fuel rest b).1,
       (program_go e data st fuel rest b).2) := by
  conv_lhs => rw [program_go]
  rw [h]

/-- A ready status admits any successor event. -/
theorem ok_step_after_ready (b : Ev) : ok_step (Ev.status 255) b = true := by
  cases b <;> simp [ok_step, is_write]

/-- A status event admits being a successor of anything. -/
theorem ok_step_to_status (a : Ev) (v : Nat) : ok_step a (Ev.status v) = true := by
  simp [ok_step, is_write]

/-- The polling loop emits only status events. -/
theorem poll_evs_statuses (st : Nat → Nat) :
    ∀ fuel base, ∀ ev ∈ (poll_evs st base fuel).1, is_write ev = false := by
  intro fuel
  induction fuel with
  | zero => intro base ev h; simp [poll_evs] at h
  | succ n ih =>
    intro base ev h
    by_cases hs : st base = 255
    · simp [poll_evs, hs] at h
      simp [h, is_write]
    · simp [poll_evs, hs] at h
      rcases h with h | h
      · simp [h, is_write]
      · exact ih (base + 1) ev h

/-- A polling loop that completed ends in a ready status. -/
theorem poll_evs_some (st : Nat → Nat) :
    ∀ fuel base b, (poll_evs st base fuel).2 = some b →
      ∃ pre, (poll_evs st base fuel).1 = pre ++ [Ev.status 255] := by
  intro fuel
  induction fuel with
  | zero => intro base b h; simp [poll_evs] at h
  | succ n ih =>
    intro base b h
    by_cases hs : st base = 255
    · refine ⟨[], ?_⟩
      simp [poll_evs, hs]
    · simp only [poll_evs, hs, if_neg hs] at h ⊢
      obtain ⟨pre, hpre⟩ := ih (base + 1) b h
      exact ⟨Ev.status (st base) :: pre, by simp [hpre]⟩

/-- A polling loop against a stream that never reports ready never
completes. -/
theorem poll_evs_none (st : Nat → Nat) (hst : ∀ n, st n ≠ 255) :
    ∀ fuel base, (poll_evs st base fuel).2 = none := by
  intro fuel
  induction fuel with
  | zero => intro base; simp [poll_evs]
  | succ n ih => intro base; simp [poll_evs, hst base, ih (base + 1)]

/-- A cons whose tail has no write events is admissible. -/
theorem ok_trace_cons_statuses (x : Ev) (l : List Ev)
    (hl : ∀ ev ∈ l, is_write ev = false) : ok_trace (x :: l) = true := by
  induction l generalizing x with
  | nil => rfl
  | cons s l' ih =>
    have hs : is_write s = false := hl s (by simp)
    have hstep : ok_step x s = true := by simp [ok_step, hs]
    have : ok_trace (s :: l') = true := ih s (fun ev hev => hl ev (by simp [hev]))
    simp [ok_trace, hstep, this]

/-- Prepending an event that admits the head keeps a trace admissible. -/
theorem ok_trace_cons (y : Ev) (l : List Ev)
    (h1 : ∀ b, l.head? = some b → ok_step y b = true)
    (h2 : ok_trace l = true) : ok_trace (y :: l) = true := by
  cases l with
  | nil => rfl
  | cons b l' => simp [ok_trace, h1 b rfl, h2]

/-- A write followed by statuses, a ready status, and an admissible
continuation is admissible. -/
theorem ok_trace_block (x : Ev) (l tail : List Ev)
    (hl : ∀ ev ∈ l, is_write ev = false)
    (htail : ok_trace tail = true) :
    ok_trace (x :: l ++ Ev.status 255 :: tail) = true := by
  induction l generalizing x with
  | nil =>
    show ok_trace (x :: Ev.status 255 :: tail) = true
    refine ok_trace_cons x (Ev.status 255 :: tail) ?_ ?_
    · intro b hb
      simp at hb
      simp [← hb, ok_step_to_status]
    · exact ok_trace_cons (Ev.status 255) tail
        (fun b _ => ok_step_after_ready b) htail
  | cons s l' ih =>
    have hs : is_write s = false := hl s (by simp)
    have hstep : ok_step x s = true := by simp [ok_step, hs]
    have htl : ok_trace (s :: l' ++ Ev.status 255 :: tail) = true :=
      ih s (fun ev hev => hl ev (by simp [hev]))
    simpa [ok_trace, hstep] using htl

/-- Every trace the write loop produces is admissible: a write is only
ever issued at the start or directly after a ready status. -/
theorem program_go_ok (e : Eeprom) (data : List Nat) (st : Nat → Nat) (fuel : Nat) :
    ∀ ws base, ok_trace (program_go e data st fuel ws base).1 = true := by
  intro ws
  induction ws with
  | nil => intro base; rfl
  | cons j rest ih =>
    intro base
    cases hpoll : poll_evs st base fuel with
    | mk evs o =>
      cases o with
      | none =>
        rw [program_go_cons_none e data st fuel j base rest evs hpoll]
        refine ok_trace_cons_statuses _ evs ?_
        intro ev hev
        have := poll_evs_statuses st fuel base ev
        rw [hpoll] at this
        exact this hev
      | some b =>
        rw [program_go_cons_some e data st fuel j base b rest evs hpoll]
        obtain ⟨pre, hpre⟩ := poll_evs_some st fuel base b (by rw [hpoll])
        rw [hpoll] at hpre
        have hpre' : evs = pre ++ [Ev.status 255] := hpre
        subst hpre'
        have hpres : ∀ ev ∈ pre, is_write ev = false := by
          intro ev hev
          have := poll_evs_statuses st fuel base ev
          rw [hpoll] at this
          exact this (by simp [hev])
        have := ok_trace_block (Ev.write j ((data.drop (j * word_size e)).take (word_size e)))
          pre (program_go e data st fuel rest b).1 hpres (ih b)
        simpa using this

/-- If the status stream never reports ready, the loop body runs the
first word's write and then spins: it never completes and never issues
a second write. -/
theorem program_go_stuck (e : Eeprom) (data : List Nat) (st : Nat → Nat)
    (hst : ∀ n, st n ≠ 255) (fuel : Nat) (j : Nat) (rest : List Nat) (base : Nat) :
    (program_go e data st fuel (j :: rest) base).2 = false ∧
    write_count (program_go e data st fuel (j :: rest) base).1 = 1 := by
  cases hpoll : poll_evs st base fuel with
  | mk evs o =>
    have ho : o = none := by
      have := poll_evs_none st hst fuel base
      rw [hpoll] at this
      exact this
    subst ho
    rw [program_go_cons_none e data st fuel j base rest evs hpoll]
    constructor
    · rfl
    · unfold write_count
      have hfil : evs.filter is_write = [] := by
        rw [List.filter_eq_nil_iff]
        intro ev hev
        have := poll_evs_statuses st fuel base ev
        rw [hpoll] at this
        simp [this hev]
      simp [List.filter, is_write, hfil]

/-! ## Claim C9 -/

/-- C9: in every trace of `eeprom_program_array`, a `write_data` call is
issued only at the very start or immediately after a `read_status`
result of `0xff` — between any two consecutive writes at least one
status poll returned ready; and when the device never returns `0xff`,
no fuel bound makes the loop complete: the operation never finishes and
never issues a second write. -/
theorem C9_write_ready_polling (e : Eeprom) (data : List Nat) (st : Nat → Nat)
    (fuel : Nat) (hsz : 0 < e.size) :
    ok_trace (eeprom_program_trace e data st fuel).1 = true ∧
    ((∀ n, st n ≠ 255) →
      (eeprom_program_trace e data st fuel).2 = false ∧
      write_count (eeprom_program_trace e data st fuel).1 = 1) := by
  constructor
  · exact program_go_ok e data st fuel _ 0
  · intro hst
    have hn : 0 < (e.size + word_size e - 1) / word_size e := by
      unfold word_size
      by_cases hx : e.is_x16 <;> simp [hx] <;> omega
    unfold eeprom_program_trace
    obtain ⟨m, hm⟩ : ∃ m, (e.size + word_size e - 1) / word_size e = m + 1 :=
      ⟨_, (Nat.succ_pred_eq_of_pos hn).symm⟩
    rw [hm]
    have hrange : List.range (m + 1) = 0 :: (List.range m).map (· + 1) := by
      rw [List.range_succ_eq_map]
    rw [hrange]
    exact program_go_stuck e data st hst fuel 0 _ 0

/-- C9 witness: an always-ready device, 8-byte x8 profile, fuel 2. -/
theorem C9_write_ready_polling_witness :
    0 < demo_x8.size ∧
    (ok_trace (eeprom_program_trace demo_x8 demo_img (fun _ => 255) 2).1 = true ∧
     ((∀ n, (fun _ => 255 : Nat → Nat) n ≠ 255) →
       (eeprom_program_trace demo_x8 demo_img (fun _ => 255) 2).2 = false ∧
       write_count (eeprom_program_trace demo_x8 demo_img (fun _ => 255) 2).1 = 1)) :=
  ⟨by decide, C9_write_ready_polling demo_x8 demo_img (fun _ => 255) 2 (by decide)⟩

/-! ## Orchestration message traces (for the disable-write claim) -/

/-- The sequence of SPI messages `eeprom_read` issues: one `read_data`
per step, at address `i` (byte offset). -/
def eeprom_read_msgs (e : Eeprom) (burst : Bool) : List (List Xfer) :=
  let step := if burst then e.size else word_size e
  (List.range ((e.size + step - 1) / step)).map (fun j => read_data_msg e step (j * step))

/-- The sequence of SPI messages of the write operation (`eeprom_write`
after the file was loaded): `enable_write`, then per word one
`write_data` followed by some number of `read_status` polls (the count
per word, `polls`, depends on the device). -/
def eeprom_write_msgs (e : Eeprom) (data : List Nat) (polls : Nat → Nat) :
    List (List Xfer) :=
  enable_write_msg e ::
    ((List.range ((e.size + word_size e - 1) / word_size e)).map
      (fun j =>
        write_data_msg e j ((data.drop (j * word_size e)).take (word_size e)) ::
          List.replicate (polls j) read_status_msg)).flatten

/-- The sequence of SPI messages `eeprom_erase` issues: `enable_write`
then `erase_all`. -/
def eeprom_erase_msgs (e : Eeprom) : List (List Xfer) :=
  [enable_write_msg e, erase_all_msg e]

/-- The command word of a `send_command` header: start bit and opcode
above `addr_bits` address bits holding the shifted subcode. -/
theorem send_command_hdrValue (e : Eeprom) (op subop : Nat)
    (hop : op < 4) (hsub : subop < 4) (h2 : 2 ≤ e.addr_bits) (h13 : e.addr_bits ≤ 13) :
    hdrValue (prepare_cmd e op ((subop <<< (e.addr_bits - 2)) % 65536) 0) =
      (op ||| 4) * 2 ^ e.addr_bits + subop * 2 ^ (e.addr_bits - 2) := by
  have hpow : (2 : Nat) ^ e.addr_bits = 2 ^ (e.addr_bits - 2) * 4 := by
    have h : e.addr_bits - 2 + 2 = e.addr_bits := by omega
    calc (2 : Nat) ^ e.addr_bits = 2 ^ (e.addr_bits - 2 + 2) := by rw [h]
    _ = 2 ^ (e.addr_bits - 2) * 4 := by rw [pow_add]; norm_num
  have hsublt : subop * 2 ^ (e.addr_bits - 2) < 2 ^ e.addr_bits := by
    rw [hpow, Nat.mul_comm (2 ^ (e.addr_bits - 2)) 4]
    exact (Nat.mul_lt_mul_right (Nat.two_pow_pos _)).mpr hsub
  have hlt16 : subop * 2 ^ (e.addr_bits - 2) < 65536 :=
    lt_of_lt_of_le hsublt
      (le_trans (Nat.pow_le_pow_right (by norm_num) h13) (by norm_num))
  rw [Nat.shiftLeft_eq, Nat.mod_eq_of_lt hlt16]
  have h := hdrValue_prepare_cmd e op (subop * 2 ^ (e.addr_bits - 2)) 0
    (by omega) (by decide) (by omega)
  rw [Nat.add_zero] at h
  rw [h, Nat.mod_eq_of_lt hsublt]

/-- A special command with a nonzero subcode is a different message from
the write-disable command (their address fields differ). -/
theorem send_command_msg_ne_ewds (e : Eeprom) (s : Nat)
    (hs : s < 4) (hs0 : s ≠ 0) (h2 : 2 ≤ e.addr_bits) (h13 : e.addr_bits ≤ 13) :
    send_command_msg e OPCODE_EWEN s ≠ diable_write_msg e := by
  intro h
  have h1 := send_command_hdrValue e OPCODE_EWEN s (by decide) hs h2 h13
  have h0 := send_command_hdrValue e OPCODE_EWEN SUBCODE_EWDS (by decide) (by decide) h2 h13
  have hp : prepare_cmd e OPCODE_EWEN ((s <<< (e.addr_bits - 2)) % 65536) 0
      = prepare_cmd e OPCODE_EWEN ((SUBCODE_EWDS <<< (e.addr_bits - 2)) % 65536) 0 := by
    have := h
    unfold send_command_msg diable_write_msg send_command_msg at this
    simpa using this
  have hv : (OPCODE_EWEN ||| 4) * 2 ^ e.addr_bits + s * 2 ^ (e.addr_bits - 2)
      = (OPCODE_EWEN ||| 4) * 2 ^ e.addr_bits + SUBCODE_EWDS * 2 ^ (e.addr_bits - 2) := by
    rw [← h1, ← h0, hp]
  have hz : s * 2 ^ (e.addr_bits - 2) = 0 := by
    have hh : SUBCODE_EWDS * 2 ^ (e.addr_bits - 2) = 0 := by
      simp [SUBCODE_EWDS]
    omega
  rcases Nat.mul_eq_zero.mp hz with h' | h'
  · exact hs0 h'
  · have := Nat.two_pow_pos (e.addr_bits - 2)
    omega

/-! ## Claim C10 -/

/-- C10: no orchestration path — read, write, or erase — ever issues the
write-disable (`EWDS`) command: its message is not among the messages
any of the three operations send, for any profile geometry, image, burst
setting, or device polling behavior. -/
theorem C10_diable_write_unreachable (e : Eeprom) (data : List Nat) (burst : Bool)
    (polls : Nat → Nat) (h2 : 2 ≤ e.addr_bits) (h13 : e.addr_bits ≤ 13) :
    diable_write_msg e ∉ eeprom_read_msgs e burst ∧
    diable_write_msg e ∉ eeprom_write_msgs e data polls ∧
    diable_write_msg e ∉ eeprom_erase_msgs e := by
  have hdlen : (diable_write_msg e).length = 1 := rfl
  refine ⟨?_, ?_, ?_⟩
  · intro h
    unfold eeprom_read_msgs at h
    rw [List.mem_map] at h
    obtain ⟨j, _, hj⟩ := h
    have := congrArg List.length hj
    simp [read_data_msg, hdrValue] at this
    rw [hdlen] at this
    omega
  · intro h
    unfold eeprom_write_msgs at h
    rcases List.mem_cons.mp h with h | h
    · exact send_command_msg_ne_ewds e SUBCODE_EWEN (by decide) (by decide) h2 h13 h.symm
    · rw [List.mem_flatten] at h
      obtain ⟨blk, hblk, hmem⟩ := h
      rw [List.mem_map] at hblk
      obtain ⟨j, _, hj⟩ := hblk
      subst hj
      rcases List.mem_cons.mp hmem with h | h
      · have := congrArg List.length h
        simp [write_data_msg] at this
        rw [hdlen] at this
        omega
      · have hrs := List.eq_of_mem_replicate h
        have : Xfer.tx (prepare_cmd e OPCODE_EWEN
            ((SUBCODE_EWDS <<< (e.addr_bits - 2)) % 65536) 0) = Xfer.rx 1 := by
          have hh : diable_write_msg e = read_status_msg := hrs
          unfold diable_write_msg send_command_msg read_status_msg at hh
          exact List.head_eq_of_cons_eq hh
        exact Xfer.noConfusion this
  · intro h
    rcases List.mem_cons.mp h with h | h
    · exact send_command_msg_ne_ewds e SUBCODE_EWEN (by decide) (by decide) h2 h13 h.symm
    · rcases List.mem_cons.mp h with h | h
      · exact send_command_msg_ne_ewds e SUBCODE_ERAL (by decide) (by decide) h2 h13 h.symm
      · simp at h

/-- C10 witness: concrete 8-byte x8 profile, demo image, stepped read,
one status poll per word. -/
theorem C10_diable_write_unreachable_witness :
    2 ≤ demo_x8.addr_bits ∧ demo_x8.addr_bits ≤ 13 ∧
    (diable_write_msg demo_x8 ∉ eeprom_read_msgs demo_x8 false ∧
     diable_write_msg demo_x8 ∉ eeprom_write_msgs demo_x8 demo_img (fun _ => 1) ∧
     diable_write_msg demo_x8 ∉ eeprom_erase_msgs demo_x8) :=
  ⟨by decide, by decide,
   C10_diable_write_unreachable demo_x8 demo_img false (fun _ => 1)
     (by decide) (by decide)⟩
